import Mathlib

/-!
# Verification of the firal log-ingestion core

Shallow embedding of `src/main.rs` and `src/model.rs` of the firal
repository (a firewall-log line parser feeding a persistence sink).

Modelling conventions:
* Rust `&str` is modelled as `List Char` (`Str` below).
* Rust `str::split(c)` is `splitOnChar` (splitting any string yields at
  least one piece, exactly as in Rust).
* Rust `HashMap<&str, &str>` is modelled as an association list with
  unique keys; `HashMap::insert` is `hmInsert` (replace when present,
  append when absent), and iteration order is modelled by quantifying
  over permutations of the list.
* Fallible Rust code returns `Except OutOfBounds`; a Rust panic
  (`unwrap`, out-of-bounds `v[i]`) is modelled by `Option` with `none`
  for the panic.
-/

/-- Rust `&str` values are modelled as lists of characters. -/
abbrev Str := List Char

/-- Rust `str::split(sep).collect::<Vec<_>>()`: every (possibly empty)
piece between occurrences of `sep`, in order.  Splitting any string
yields at least one piece. -/
def splitOnChar (sep : Char) : Str → List Str
  | [] => [[]]
  | c :: rest =>
    if c = sep then [] :: splitOnChar sep rest
    else
      match splitOnChar sep rest with
      | [] => [[c]]
      | h :: t => (c :: h) :: t

/-- A key→value mapping (`HashMap<&str, &str>` in the source), modelled
as an association list whose keys are kept unique by `hmInsert`. -/
abbrev FieldMap := List (Str × Str)

/-- The field-key string literals of `src/main.rs`. -/
def kID : Str := "ID".toList

def kIN : Str := "IN".toList

def kOUT : Str := "OUT".toList

def kSRC : Str := "SRC".toList

def kDST : Str := "DST".toList

def kLEN : Str := "LEN".toList

def kPROTO : Str := "PROTO".toList

def kSPT : Str := "SPT".toList

def kDPT : Str := "DPT".toList

def kRULE_ID : Str := "RULE_ID".toList

def kFLOW_TYPE : Str := "FLOW_TYPE".toList

def kFW_ACTION : Str := "FW_ACTION".toList

def kLOGGED_AT : Str := "LOGGED_AT".toList

/-- Lookup in a `FieldMap` (the observation `HashMap::get` provides). -/
def mLookup (k : Str) : FieldMap → Option Str
  | [] => none
  | (k', v) :: rest => if k' = k then some v else mLookup k rest

/-- Rust `HashMap::insert`: if the key is already present its value is
replaced (last write wins), otherwise the binding is added. -/
def hmInsert (m : FieldMap) (k v : Str) : FieldMap :=
  match m with
  | [] => [(k, v)]
  | (k', v') :: rest => if k' = k then (k, v) :: rest else (k', v') :: hmInsert rest k v

/-- The uniform error value of `src/main.rs` (`struct OutOfBounds`). -/
inductive OutOfBounds where
  | outOfBounds
deriving DecidableEq

/-- `Option::ok_or(OutOfBounds)` from the source. -/
def okOr {α : Type} (o : Option α) : Except OutOfBounds α :=
  match o with
  | some a => Except.ok a
  | none => Except.error OutOfBounds.outOfBounds

/-- Rust `str::get(1..)`: `some` of the remainder when byte index 1 is a
character boundary, i.e. when the string is non-empty and its first
character is a single UTF-8 byte (code point below 128); `none`
otherwise (empty string, or multi-byte first character). -/
def strTail1 (s : Str) : Option Str :=
  match s with
  | [] => none
  | c :: rest => if c.toNat < 128 then some rest else none

/-- `parse_brackets` from `src/main.rs` (lines 105-124): splits the
bracketed rule token `[FLOW_TYPE-RULE_ID-ACTION]IN=ifname` into its four
parts, or fails with the uniform `OutOfBounds` error.  The direct index
`split_inner[0]` of the source is rendered with `headD` here; the
panic-faithful variant `parse_bracketsP` below is proved to agree. -/
def parse_brackets (bracket : Str) : Except OutOfBounds (Str × Str × Str × Str) :=
  let split_end_bracket := splitOnChar ']' bracket
  match split_end_bracket.get? 0 with
  | none => Except.error OutOfBounds.outOfBounds
  | some body =>
    let split_inner := splitOnChar '-' body
    match split_end_bracket.get? 1 with
    | none => Except.error OutOfBounds.outOfBounds
    | some after =>
      let in_interface := splitOnChar '=' after
      match strTail1 (split_inner.headD []) with
      | none => Except.error OutOfBounds.outOfBounds
      | some flow_type =>
        match split_inner.get? 1 with
        | none => Except.error OutOfBounds.outOfBounds
        | some rule_id =>
          match split_inner.get? 2 with
          | none => Except.error OutOfBounds.outOfBounds
          | some fw_action =>
            match in_interface.get? 1 with
            | none => Except.error OutOfBounds.outOfBounds
            | some ifname => Except.ok (flow_type, rule_id, fw_action, ifname)

/-- The `KEY=VALUE` handling of tokens 4.. in `parse_line` (lines
147-156): split on `=`; fewer than 2 pieces means the token is dropped
(`none`), otherwise the pair `(kv[0], kv[1])` is produced. -/
def tokKV (t : Str) : Option (Str × Str) :=
  let kv := splitOnChar '=' t
  if kv.length < 2 then none else some (kv.headD [], kv.getD 1 [])

/-- The indexed token loop of `parse_line` (lines 129-158): `i` is the
`enumerate` counter, `parsed` the accumulated map. -/
def parseTokens : List Str → Nat → FieldMap → Except OutOfBounds FieldMap
  | [], _, parsed => Except.ok parsed
  | data :: rest, i, parsed =>
    if i = 0 then parseTokens rest (i + 1) (hmInsert parsed kLOGGED_AT data)
    else if i = 1 ∨ i = 2 then parseTokens rest (i + 1) parsed
    else if i = 3 then
      match parse_brackets data with
      | Except.error e => Except.error e
      | Except.ok (flow_type, rule_id, fw_action, in_interface) =>
        parseTokens rest (i + 1)
          (hmInsert (hmInsert (hmInsert (hmInsert parsed kFW_ACTION fw_action)
            kRULE_ID rule_id) kFLOW_TYPE flow_type) kIN in_interface)
    else
      match tokKV data with
      | none => parseTokens rest (i + 1) parsed
      | some kv => parseTokens rest (i + 1) (hmInsert parsed kv.1 kv.2)

/-- `parse_line` from `src/main.rs` (lines 126-160). -/
def parse_line (line : Str) : Except OutOfBounds FieldMap :=
  parseTokens (splitOnChar ' ' line) 0 []

/-! ## Panic-faithful variants

The source contains two direct vector indexings (`split_inner[0]` at
line 119 and `kv[0]` at line 151 of `src/main.rs`) which panic when out
of bounds, plus the guarded `kv[0]`/`kv[1]` at line 155.  The variants
below model a panic as the outer `none`; they are proved to agree with
the non-panicking definitions above (claim C10). -/

/-- `parse_brackets` with the direct indexing `split_inner[0]` modelled
as a potential panic (`none` = panic). -/
def parse_bracketsP (bracket : Str) : Option (Except OutOfBounds (Str × Str × Str × Str)) :=
  let split_end_bracket := splitOnChar ']' bracket
  match split_end_bracket.get? 0 with
  | none => some (Except.error OutOfBounds.outOfBounds)
  | some body =>
    let split_inner := splitOnChar '-' body
    match split_end_bracket.get? 1 with
    | none => some (Except.error OutOfBounds.outOfBounds)
    | some after =>
      let in_interface := splitOnChar '=' after
      match split_inner.get? 0 with
      | none => none
      | some first =>
        match strTail1 first with
        | none => some (Except.error OutOfBounds.outOfBounds)
        | some flow_type =>
          match split_inner.get? 1 with
          | none => some (Except.error OutOfBounds.outOfBounds)
          | some rule_id =>
            match split_inner.get? 2 with
            | none => some (Except.error OutOfBounds.outOfBounds)
            | some fw_action =>
              match in_interface.get? 1 with
              | none => some (Except.error OutOfBounds.outOfBounds)
              | some ifname => some (Except.ok (flow_type, rule_id, fw_action, ifname))

/-- Token 4.. handling with the direct indexings `kv[0]` (diagnostic
branch, line 151) and `kv[0]`, `kv[1]` (insert, line 155) modelled as
potential panics (outer `none` = panic; inner `none` = token dropped). -/
def tokKVP (t : Str) : Option (Option (Str × Str)) :=
  let kv := splitOnChar '=' t
  if kv.length < 2 then
    match kv.get? 0 with
    | none => none
    | some _ => some none
  else
    match kv.get? 0, kv.get? 1 with
    | some k, some v => some (some (k, v))
    | _, _ => none

/-- The token loop of `parse_line` with panics modelled (`none` = panic). -/
def parseTokensP : List Str → Nat → FieldMap → Option (Except OutOfBounds FieldMap)
  | [], _, parsed => some (Except.ok parsed)
  | data :: rest, i, parsed =>
    if i = 0 then parseTokensP rest (i + 1) (hmInsert parsed kLOGGED_AT data)
    else if i = 1 ∨ i = 2 then parseTokensP rest (i + 1) parsed
    else if i = 3 then
      match parse_bracketsP data with
      | none => none
      | some (Except.error e) => some (Except.error e)
      | some (Except.ok (flow_type, rule_id, fw_action, in_interface)) =>
        parseTokensP rest (i + 1)
          (hmInsert (hmInsert (hmInsert (hmInsert parsed kFW_ACTION fw_action)
            kRULE_ID rule_id) kFLOW_TYPE flow_type) kIN in_interface)
    else
      match tokKVP data with
      | none => none
      | some none => parseTokensP rest (i + 1) parsed
      | some (some kv) => parseTokensP rest (i + 1) (hmInsert parsed kv.1 kv.2)

/-- `parse_line` with panics modelled (`none` = panic). -/
def parse_lineP (line : Str) : Option (Except OutOfBounds FieldMap) :=
  parseTokensP (splitOnChar ' ' line) 0 []

/-! ## The record builder (`insert_line`, `src/main.rs` lines 39-62)

`Entry` is the `FlowRecord` of the spec (`src/model.rs`).  The numeric
fields are parsed with Rust's `str::parse::<i32>` (`parseI32` below);
a failing `unwrap` is a panic, modelled as `none`. -/

/-- The value of an ASCII decimal digit, `none` for any other character. -/
def digitVal (c : Char) : Option Nat :=
  if '0' ≤ c ∧ c ≤ '9' then some (c.toNat - 48) else none

/-- Accumulate a run of decimal digits; fails on any non-digit. -/
def natOfDigitsAux (acc : Nat) : Str → Option Nat
  | [] => some acc
  | c :: rest =>
    match digitVal c with
    | none => none
    | some d => natOfDigitsAux (acc * 10 + d) rest

/-- A non-empty all-digit string as a natural number. -/
def natOfDigits : Str → Option Nat
  | [] => none
  | s => natOfDigitsAux 0 s

/-- Rust `str::parse::<i32>()`: an optional sign followed by at least
one ASCII decimal digit, rejecting values outside the `i32` range.  The
result is kept as an unbounded `Int` (it always fits in 32 bits). -/
def parseI32 (s : Str) : Option Int :=
  match s with
  | '+' :: rest =>
    (natOfDigits rest).bind fun n => if n ≤ 2147483647 then some (Int.ofNat n) else none
  | '-' :: rest =>
    (natOfDigits rest).bind fun n => if n ≤ 2147483648 then some (-(Int.ofNat n)) else none
  | _ =>
    (natOfDigits s).bind fun n => if n ≤ 2147483647 then some (Int.ofNat n) else none

/-- Read exactly `n` decimal digits, returning their value and the rest. -/
def readDigitsAux : Nat → Nat → Str → Option (Nat × Str)
  | 0, acc, s => some (acc, s)
  | _ + 1, _, [] => none
  | n + 1, acc, c :: rest =>
    match digitVal c with
    | none => none
    | some d => readDigitsAux n (acc * 10 + d) rest

/-- Read exactly `n` decimal digits. -/
def readDigits (n : Nat) (s : Str) : Option (Nat × Str) :=
  readDigitsAux n 0 s

/-- Consume one expected character. -/
def expectChar (c : Char) : Str → Option Str
  | [] => none
  | c' :: rest => if c' = c then some rest else none

/-- Drop a leading run of decimal digits. -/
def dropDigits : Str → Str
  | [] => []
  | c :: rest => if (digitVal c).isSome then dropDigits rest else c :: rest

/-- An optional fractional-seconds part: `.` followed by at least one
digit; absent is fine. -/
def readFrac : Str → Option Str
  | '.' :: rest =>
    match rest with
    | c :: _ => if (digitVal c).isSome then some (dropDigits rest) else none
    | [] => none
  | s => some s

def isLeapYear (y : Nat) : Bool :=
  y % 4 = 0 && (y % 100 ≠ 0 || y % 400 = 0)

def daysInMonth (y m : Nat) : Nat :=
  if m = 2 then (if isLeapYear y then 29 else 28)
  else if m = 4 ∨ m = 6 ∨ m = 9 ∨ m = 11 then 30
  else 31

/-- Modelled from the spec: §4.3 says `LOGGED_AT` "parses an RFC-3339
timestamp with explicit offset".  The parsing itself is done by the
external `chrono` library (`DateTime::parse_from_rfc3339`), which is not
part of this repository; its accept-set is modelled here: full date,
`T`/`t` separator, time, optional fractional seconds, and a mandatory
offset (`Z`/`z` or `±HH:MM`), with calendar-valid field ranges. -/
def isValidRfc3339 (s : Str) : Bool :=
  (do
    let (y, s) ← readDigits 4 s
    let s ← expectChar '-' s
    let (mo, s) ← readDigits 2 s
    let s ← expectChar '-' s
    let (d, s) ← readDigits 2 s
    let s ← match s with
      | c :: rest => if c = 'T' ∨ c = 't' then some rest else none
      | [] => none
    let (h, s) ← readDigits 2 s
    let s ← expectChar ':' s
    let (mi, s) ← readDigits 2 s
    let s ← expectChar ':' s
    let (sec, s) ← readDigits 2 s
    let s ← readFrac s
    let s ← match s with
      | c :: rest =>
        if c = 'Z' ∨ c = 'z' then some rest
        else if c = '+' ∨ c = '-' then do
          let (oh, s2) ← readDigits 2 rest
          let s2 ← expectChar ':' s2
          let (om, s2) ← readDigits 2 s2
          if oh ≤ 23 ∧ om ≤ 59 then some s2 else none
        else none
      | [] => none
    if s = [] ∧ 1 ≤ mo ∧ mo ≤ 12 ∧ 1 ≤ d ∧ d ≤ daysInMonth y mo ∧
        h ≤ 23 ∧ mi ≤ 59 ∧ sec ≤ 60 then
      some ()
    else none).isSome

/-- The flow record (`struct Entry`, `src/model.rs` lines 3-19).  The
`logged_at` field carries the RFC-3339 source text that `chrono` parsed
(two identical texts parse to the same timestamp, so this refines the
source's parsed representation). -/
structure Entry where
  id : Int
  src_ip : Str
  src_port : Int
  dst_ip : Str
  dst_port : Int
  packet_size : Int
  packet_id : Int
  protocol : Str
  flow_type : Str
  rule_id : Str
  in_interface : Str
  out_interface : Option Str
  fw_action : Str
  logged_at : Option Str
deriving DecidableEq

/-- `Entry::new()` = `Entry::default()` (`src/model.rs` lines 21-45). -/
def Entry.new : Entry where
  id := 0
  src_ip := []
  src_port := 0
  dst_ip := []
  dst_port := 0
  packet_size := 0
  packet_id := 0
  protocol := []
  flow_type := []
  rule_id := []
  in_interface := []
  out_interface := none
  fw_action := []
  logged_at := none

/-- One iteration of the `for (k, v) in parsed` match in `insert_line`
(`src/main.rs` lines 42-61).  `none` models a panicking `unwrap` (bad
numeric text for `ID`/`LEN`/`SPT`/`DPT`, bad timestamp text for
`LOGGED_AT`); unrecognized keys only emit a diagnostic. -/
def applyKV (e : Entry) (k v : Str) : Option Entry :=
  if k = kID then (parseI32 v).map fun n => { e with packet_id := n }
  else if k = kIN then some { e with in_interface := v }
  else if k = kOUT then some { e with out_interface := some v }
  else if k = kSRC then some { e with src_ip := v }
  else if k = kDST then some { e with dst_ip := v }
  else if k = kLEN then (parseI32 v).map fun n => { e with packet_size := n }
  else if k = kPROTO then some { e with protocol := v }
  else if k = kSPT then (parseI32 v).map fun n => { e with src_port := n }
  else if k = kDPT then (parseI32 v).map fun n => { e with dst_port := n }
  else if k = kRULE_ID then some { e with rule_id := v }
  else if k = kFLOW_TYPE then some { e with flow_type := v }
  else if k = kFW_ACTION then some { e with fw_action := v }
  else if k = kLOGGED_AT then
    if isValidRfc3339 v then some { e with logged_at := some v } else none
  else some e

/-- The whole `for` loop of `insert_line`, folded over one enumeration
of the map (`HashMap` iteration order is arbitrary; claim C9 proves the
result does not depend on it). -/
def buildEntryFrom (e : Entry) : FieldMap → Option Entry
  | [] => some e
  | (k, v) :: rest =>
    match applyKV e k v with
    | none => none
    | some e' => buildEntryFrom e' rest

/-- The record the `insert_line` loop builds from a `FieldMap` (`none`
models a panic on malformed numeric/timestamp text). -/
def buildEntry (m : FieldMap) : Option Entry :=
  buildEntryFrom Entry.new m

/-! ## Lookup characterization of the builder

`entrySpecFrom` recomputes the builder's result purely from `mLookup`
observations; the master lemma below proves it equal to `buildEntryFrom`
on maps with unique keys, which is what makes the builder independent of
`HashMap` iteration order. -/

/-- Keys are unique (always true of maps built by `hmInsert`). -/
abbrev NodupKeys (m : FieldMap) : Prop :=
  (m.map Prod.fst).Nodup

/-- Conversion of one integer-valued key: an absent key keeps the
default, a present key must parse. -/
def intSpec (d : Int) (o : Option Str) : Option Int :=
  match o with
  | none => some d
  | some v => parseI32 v

/-- Conversion of the `LOGGED_AT` key: an absent key keeps the default,
a present key must be a valid RFC-3339 timestamp. -/
def latSpecF (d : Option Str) (o : Option Str) : Option (Option Str) :=
  match o with
  | none => some d
  | some v => if isValidRfc3339 v then some (some v) else none

def pidSpec (e0 : Entry) (m : FieldMap) : Option Int :=
  intSpec e0.packet_id (mLookup kID m)

def lenSpec (e0 : Entry) (m : FieldMap) : Option Int :=
  intSpec e0.packet_size (mLookup kLEN m)

def sptSpec (e0 : Entry) (m : FieldMap) : Option Int :=
  intSpec e0.src_port (mLookup kSPT m)

def dptSpec (e0 : Entry) (m : FieldMap) : Option Int :=
  intSpec e0.dst_port (mLookup kDPT m)

def latSpec (e0 : Entry) (m : FieldMap) : Option (Option Str) :=
  latSpecF e0.logged_at (mLookup kLOGGED_AT m)

/-- The builder's result, computed from lookups only. -/
def entrySpecFrom (e0 : Entry) (m : FieldMap) : Option Entry :=
  (pidSpec e0 m).bind fun pid =>
  (lenSpec e0 m).bind fun len =>
  (sptSpec e0 m).bind fun spt =>
  (dptSpec e0 m).bind fun dpt =>
  (latSpec e0 m).bind fun lat =>
  some
    { id := e0.id
      src_ip := (mLookup kSRC m).getD e0.src_ip
      src_port := spt
      dst_ip := (mLookup kDST m).getD e0.dst_ip
      dst_port := dpt
      packet_size := len
      packet_id := pid
      protocol := (mLookup kPROTO m).getD e0.protocol
      flow_type := (mLookup kFLOW_TYPE m).getD e0.flow_type
      rule_id := (mLookup kRULE_ID m).getD e0.rule_id
      in_interface := (mLookup kIN m).getD e0.in_interface
      out_interface := (mLookup kOUT m).elim e0.out_interface some
      fw_action := (mLookup kFW_ACTION m).getD e0.fw_action
      logged_at := lat }

/-! ## Per-line ingestion (`ingest_file`, `src/main.rs` lines 162-175) -/

/-- What happens to one line at the ingestion boundary. -/
inductive LineOutcome where
  | skipped (line : Str)
  | inserted (e : Entry)
deriving DecidableEq

/-- Rust `str::lines()`: split on `'\n'`, drop a final empty piece (a
trailing newline does not produce an extra line), strip one trailing
`'\r'` from each line. -/
def splitLines (s : Str) : List Str :=
  let parts := splitOnChar '\n' s
  let parts := if parts.getLast? = some [] then parts.dropLast else parts
  parts.map fun l => if l.getLast? = some '\r' then l.dropLast else l

/-- The per-line loop of `ingest_file`: a parse failure is reported and
skipped, a parsed line goes through `insert_line` (whose `unwrap`s can
panic, aborting the whole run: outer `none`).  The database insert
itself reports failure without aborting, so it adds no failure case. -/
def runLines : List Str → Option (List LineOutcome)
  | [] => some []
  | l :: ls =>
    match parse_line l with
    | Except.error _ => (runLines ls).map (LineOutcome.skipped l :: ·)
    | Except.ok m =>
      match buildEntry m with
      | none => none
      | some e => (runLines ls).map (LineOutcome.inserted e :: ·)

/-- `ingest_file` on the content of a readable file (`none` = the run
was aborted by a panic inside `insert_line`). -/
def ingest_file (content : Str) : Option (List LineOutcome) :=
  runLines (splitLines content)

/-! ## Helper functions used in claim statements -/

/-- One step of the token scan for tokens 4.. . -/
def stepFn (m : FieldMap) (t : Str) : FieldMap :=
  match tokKV t with
  | none => m
  | some kv => hmInsert m kv.1 kv.2

/-- The value of the last token among `ts` (tokens 4.. of a line) that
produces key `k`, if any: later tokens take precedence. -/
def lastVal (k : Str) : List Str → Option Str
  | [] => none
  | t :: ts =>
    match lastVal k ts with
    | some v => some v
    | none =>
      match tokKV t with
      | some kv => if kv.1 = k then some kv.2 else none
      | none => none

/-- The map accumulated by `parse_line` after tokens 0-3 of a line whose
bracket token parsed as `(ft, ri, fa, ii)`. -/
def initMap (t0 ft ri fa ii : Str) : FieldMap :=
  [(kLOGGED_AT, t0), (kFW_ACTION, fa), (kRULE_ID, ri),
   (kFLOW_TYPE, ft), (kIN, ii)]

/-- Lookup through a `parse_line` result (`none` on a failed line). -/
def resLookup (r : Except OutOfBounds FieldMap) (k : Str) : Option Str :=
  match r with
  | Except.ok m => mLookup k m
  | Except.error _ => none

/-! ## Basic lemmas -/

theorem splitOnChar_ne_nil (sep : Char) (s : Str) : splitOnChar sep s ≠ [] := by
  induction s with
  | nil => simp [splitOnChar]
  | cons c rest ih =>
    simp only [splitOnChar]
    split
    · simp
    · split
      · simp
      · simp

theorem mLookup_hmInsert_self (m : FieldMap) (k v : Str) :
    mLookup k (hmInsert m k v) = some v := by
  induction m with
  | nil => simp [hmInsert, mLookup]
  | cons p rest ih =>
    obtain ⟨k', v'⟩ := p
    simp only [hmInsert]
    by_cases h : k' = k
    · simp [h, mLookup]
    · simp [h, mLookup, ih]

theorem mLookup_hmInsert_ne {k k' : Str} (m : FieldMap) (v : Str) (h : k' ≠ k) :
    mLookup k (hmInsert m k' v) = mLookup k m := by
  induction m with
  | nil => simp [hmInsert, mLookup, h]
  | cons p rest ih =>
    obtain ⟨k'', v''⟩ := p
    simp only [hmInsert]
    by_cases h2 : k'' = k'
    · subst h2
      simp [mLookup, h]
    · simp only [h2, if_false, mLookup]
      by_cases h3 : k'' = k
      · simp [h3]
      · simp [h3, ih]

theorem mem_keys_hmInsert {x : Str} (m : FieldMap) (k v : Str)
    (h : x ∈ (hmInsert m k v).map Prod.fst) : x = k ∨ x ∈ m.map Prod.fst := by
  induction m with
  | nil => simpa [hmInsert] using h
  | cons p rest ih =>
    obtain ⟨k', v'⟩ := p
    simp only [hmInsert] at h
    by_cases h2 : k' = k
    · rw [if_pos h2] at h
      simp only [List.map_cons, List.mem_cons] at h ⊢
      tauto
    · rw [if_neg h2] at h
      simp only [List.map_cons, List.mem_cons] at h ⊢
      rcases h with h | h
      · tauto
      · rcases ih h with h3 | h3 <;> tauto

theorem NodupKeys_hmInsert (m : FieldMap) (k v : Str) (h : NodupKeys m) :
    NodupKeys (hmInsert m k v) := by
  induction m with
  | nil => simp [hmInsert, NodupKeys]
  | cons p rest ih =>
    obtain ⟨k', v'⟩ := p
    simp only [NodupKeys, List.map_cons, List.nodup_cons] at h
    obtain ⟨hk', hrest⟩ := h
    simp only [NodupKeys, hmInsert]
    by_cases h2 : k' = k
    · rw [if_pos h2]
      subst h2
      simp only [List.map_cons, List.nodup_cons]
      exact ⟨hk', hrest⟩
    · rw [if_neg h2]
      simp only [List.map_cons, List.nodup_cons]
      refine ⟨fun hmem => ?_, ih hrest⟩
      rcases mem_keys_hmInsert rest k v hmem with h3 | h3
      · exact h2 h3
      · exact hk' h3

theorem parseTokens_ge4 (ts : List Str) : ∀ (i : Nat) (m : FieldMap), 4 ≤ i →
    parseTokens ts i m = Except.ok (ts.foldl stepFn m) := by
  induction ts with
  | nil => intro i m _; simp [parseTokens]
  | cons t rest ih =>
    intro i m h
    have h0 : ¬ i = 0 := by omega
    have h12 : ¬ (i = 1 ∨ i = 2) := by omega
    have h3 : ¬ i = 3 := by omega
    simp only [parseTokens, h0, h12, h3, if_false, List.foldl_cons]
    cases hkv : tokKV t with
    | none => simpa [stepFn, hkv] using ih (i + 1) m (by omega)
    | some kv => simpa [stepFn, hkv] using ih (i + 1) (hmInsert m kv.1 kv.2) (by omega)

theorem foldl_stepFn_lookup (k : Str) (ts : List Str) : ∀ (m : FieldMap),
    mLookup k (ts.foldl stepFn m) =
      match lastVal k ts with
      | some v => some v
      | none => mLookup k m := by
  induction ts with
  | nil => intro m; simp [lastVal]
  | cons t rest ih =>
    intro m
    rw [List.foldl_cons, ih (stepFn m t)]
    cases hl : lastVal k rest with
    | some v => simp [lastVal, hl]
    | none =>
      simp only [lastVal, hl]
      cases hkv : tokKV t with
      | none => simp [stepFn, hkv]
      | some kv =>
        simp only [stepFn, hkv]
        by_cases hk : kv.1 = k
        · subst hk
          simp [mLookup_hmInsert_self]
        · simp [hk, mLookup_hmInsert_ne m kv.2 hk]

theorem initMap_eq (t0 ft ri fa ii : Str) :
    hmInsert (hmInsert (hmInsert (hmInsert (hmInsert [] kLOGGED_AT t0)
        kFW_ACTION fa) kRULE_ID ri) kFLOW_TYPE ft)
        kIN ii = initMap t0 ft ri fa ii := by
  simp +decide [hmInsert, initMap]

theorem parseTokens_structured (t0 t1 t2 t3 : Str) (rest : List Str) :
    parseTokens (t0 :: t1 :: t2 :: t3 :: rest) 0 [] =
      match parse_brackets t3 with
      | Except.error e => Except.error e
      | Except.ok (ft, ri, fa, ii) =>
        Except.ok (rest.foldl stepFn (initMap t0 ft ri fa ii)) := by
  cases hb : parse_brackets t3 with
  | error e => simp [parseTokens, hb]
  | ok q =>
    obtain ⟨ft, ri, fa, ii⟩ := q
    simp only [parseTokens, hb]
    norm_num
    rw [parseTokens_ge4 rest 4 _ (by omega)]
    simp +decide [hmInsert, initMap]

theorem mLookup_cons (k k' v : Str) (m : FieldMap) :
    mLookup k ((k', v) :: m) = if k' = k then some v else mLookup k m := rfl

theorem mLookup_eq_none {k : Str} {m : FieldMap} (h : k ∉ m.map Prod.fst) :
    mLookup k m = none := by
  induction m with
  | nil => rfl
  | cons p rest ih =>
    obtain ⟨k', v'⟩ := p
    simp only [List.map_cons, List.mem_cons] at h
    push_neg at h
    simp only [mLookup_cons, h.1, if_neg (Ne.symm h.1)]
    exact ih h.2

theorem parseTokens_nodup (ts : List Str) : ∀ (i : Nat) (m m' : FieldMap),
    NodupKeys m → parseTokens ts i m = Except.ok m' → NodupKeys m' := by
  induction ts with
  | nil =>
    intro i m m' h he
    simp only [parseTokens, Except.ok.injEq] at he
    exact he ▸ h
  | cons t rest ih =>
    intro i m m' h he
    simp only [parseTokens] at he
    by_cases h0 : i = 0
    · rw [if_pos h0] at he
      exact ih _ _ _ (NodupKeys_hmInsert _ _ _ h) he
    · rw [if_neg h0] at he
      by_cases h12 : i = 1 ∨ i = 2
      · rw [if_pos h12] at he
        exact ih _ _ _ h he
      · rw [if_neg h12] at he
        by_cases h3 : i = 3
        · rw [if_pos h3] at he
          cases hb : parse_brackets t with
          | error e =>
            rw [hb] at he
            exact absurd he (by simp)
          | ok q =>
            obtain ⟨ft, ri, fa, ii⟩ := q
            rw [hb] at he
            exact ih _ _ _ (NodupKeys_hmInsert _ _ _ (NodupKeys_hmInsert _ _ _
              (NodupKeys_hmInsert _ _ _ (NodupKeys_hmInsert _ _ _ h)))) he
        · rw [if_neg h3] at he
          cases hkv : tokKV t with
          | none =>
            rw [hkv] at he
            exact ih _ _ _ h he
          | some kv =>
            rw [hkv] at he
            exact ih _ _ _ (NodupKeys_hmInsert _ _ _ h) he

theorem parse_line_nodup {line : Str} {m : FieldMap} (h : parse_line line = Except.ok m) :
    NodupKeys m :=
  parseTokens_nodup _ _ _ _ (by simp [NodupKeys]) h

theorem mLookup_perm (k : Str) : ∀ {m m' : FieldMap},
    List.Perm m m' → NodupKeys m → mLookup k m = mLookup k m' := by
  intro m m' hp
  induction hp with
  | nil => intro _; rfl
  | cons x hp ih =>
    intro hnd
    obtain ⟨k', v'⟩ := x
    simp only [mLookup_cons]
    by_cases h : k' = k
    · simp [h]
    · simp only [h, if_false]
      refine ih ?_
      simp only [NodupKeys, List.map_cons, List.nodup_cons] at hnd
      exact hnd.2
  | swap x y l =>
    intro hnd
    obtain ⟨k1, v1⟩ := x
    obtain ⟨k2, v2⟩ := y
    have hne : k2 ≠ k1 := by
      simp only [NodupKeys, List.map_cons, List.nodup_cons, List.mem_cons] at hnd
      exact fun hh => hnd.1 (Or.inl hh)
    simp only [mLookup_cons]
    by_cases h1 : k1 = k <;> by_cases h2 : k2 = k <;> simp [h1, h2]
    exact absurd (h2.trans h1.symm) hne
  | trans hp1 hp2 ih1 ih2 =>
    intro hnd
    refine (ih1 hnd).trans (ih2 ?_)
    have hmap := hp1.map Prod.fst
    exact hmap.nodup_iff.mp hnd

theorem bind_fun_none {A B : Type} (o : Option A) :
    (o.bind fun _ => (none : Option B)) = none := by
  cases o <;> rfl

/-- Master lemma: on a map with unique keys, the `insert_line` loop
computes exactly the lookup characterization `entrySpecFrom`,
whatever the iteration order enumerates first. -/
theorem buildEntryFrom_eq : ∀ (m : FieldMap) (e0 : Entry), NodupKeys m →
    buildEntryFrom e0 m = entrySpecFrom e0 m := by
  intro m
  induction m with
  | nil =>
    intro e0 _
    simp [buildEntryFrom, entrySpecFrom, pidSpec, lenSpec, sptSpec, dptSpec, latSpec, intSpec, latSpecF, mLookup_cons, mLookup]
  | cons p rest ih =>
    intro e0 hnd
    obtain ⟨k, v⟩ := p
    have hknotin : k ∉ rest.map Prod.fst := by
      simp only [NodupKeys, List.map_cons, List.nodup_cons] at hnd
      exact hnd.1
    have hndrest : NodupKeys rest := by
      simp only [NodupKeys, List.map_cons, List.nodup_cons] at hnd
      exact hnd.2
    have hkrest : mLookup k rest = none := mLookup_eq_none hknotin
    simp only [buildEntryFrom]
    by_cases h1 : k = kID
    · subst h1
      simp +decide [applyKV]
      cases hp : parseI32 v with
      | none => simp [hp, entrySpecFrom, pidSpec, lenSpec, sptSpec, dptSpec, latSpec, intSpec, latSpecF, mLookup_cons, bind_fun_none]
      | some n =>
        simp only [hp, Option.map_some']
        rw [ih _ hndrest]
        simp +decide [entrySpecFrom, pidSpec, lenSpec, sptSpec, dptSpec, latSpec, intSpec, latSpecF, mLookup_cons, hkrest, hp]
    by_cases h2 : k = kIN
    · subst h2
      simp +decide [applyKV]
      rw [ih _ hndrest]
      simp +decide [entrySpecFrom, pidSpec, lenSpec, sptSpec, dptSpec, latSpec, intSpec, latSpecF, mLookup_cons, hkrest]
    by_cases h3 : k = kOUT
    · subst h3
      simp +decide [applyKV]
      rw [ih _ hndrest]
      simp +decide [entrySpecFrom, pidSpec, lenSpec, sptSpec, dptSpec, latSpec, intSpec, latSpecF, mLookup_cons, hkrest]
    by_cases h4 : k = kSRC
    · subst h4
      simp +decide [applyKV]
      rw [ih _ hndrest]
      simp +decide [entrySpecFrom, pidSpec, lenSpec, sptSpec, dptSpec, latSpec, intSpec, latSpecF, mLookup_cons, hkrest]
    by_cases h5 : k = kDST
    · subst h5
      simp +decide [applyKV]
      rw [ih _ hndrest]
      simp +decide [entrySpecFrom, pidSpec, lenSpec, sptSpec, dptSpec, latSpec, intSpec, latSpecF, mLookup_cons, hkrest]
    by_cases h6 : k = kLEN
    · subst h6
      simp +decide [applyKV]
      cases hp : parseI32 v with
      | none => simp [hp, entrySpecFrom, pidSpec, lenSpec, sptSpec, dptSpec, latSpec, intSpec, latSpecF, mLookup_cons, bind_fun_none]
      | some n =>
        simp only [hp, Option.map_some']
        rw [ih _ hndrest]
        simp +decide [entrySpecFrom, pidSpec, lenSpec, sptSpec, dptSpec, latSpec, intSpec, latSpecF, mLookup_cons, hkrest, hp]
    by_cases h7 : k = kPROTO
    · subst h7
      simp +decide [applyKV]
      rw [ih _ hndrest]
      simp +decide [entrySpecFrom, pidSpec, lenSpec, sptSpec, dptSpec, latSpec, intSpec, latSpecF, mLookup_cons, hkrest]
    by_cases h8 : k = kSPT
    · subst h8
      simp +decide [applyKV]
      cases hp : parseI32 v with
      | none => simp [hp, entrySpecFrom, pidSpec, lenSpec, sptSpec, dptSpec, latSpec, intSpec, latSpecF, mLookup_cons, bind_fun_none]
      | some n =>
        simp only [hp, Option.map_some']
        rw [ih _ hndrest]
        simp +decide [entrySpecFrom, pidSpec, lenSpec, sptSpec, dptSpec, latSpec, intSpec, latSpecF, mLookup_cons, hkrest, hp]
    by_cases h9 : k = kDPT
    · subst h9
      simp +decide [applyKV]
      cases hp : parseI32 v with
      | none => simp [hp, entrySpecFrom, pidSpec, lenSpec, sptSpec, dptSpec, latSpec, intSpec, latSpecF, mLookup_cons, bind_fun_none]
      | some n =>
        simp only [hp, Option.map_some']
        rw [ih _ hndrest]
        simp +decide [entrySpecFrom, pidSpec, lenSpec, sptSpec, dptSpec, latSpec, intSpec, latSpecF, mLookup_cons, hkrest, hp]
    by_cases h10 : k = kRULE_ID
    · subst h10
      simp +decide [applyKV]
      rw [ih _ hndrest]
      simp +decide [entrySpecFrom, pidSpec, lenSpec, sptSpec, dptSpec, latSpec, intSpec, latSpecF, mLookup_cons, hkrest]
    by_cases h11 : k = kFLOW_TYPE
    · subst h11
      simp +decide [applyKV]
      rw [ih _ hndrest]
      simp +decide [entrySpecFrom, pidSpec, lenSpec, sptSpec, dptSpec, latSpec, intSpec, latSpecF, mLookup_cons, hkrest]
    by_cases h12 : k = kFW_ACTION
    · subst h12
      simp +decide [applyKV]
      rw [ih _ hndrest]
      simp +decide [entrySpecFrom, pidSpec, lenSpec, sptSpec, dptSpec, latSpec, intSpec, latSpecF, mLookup_cons, hkrest]
    by_cases h13 : k = kLOGGED_AT
    · subst h13
      simp +decide [applyKV]
      cases hval : isValidRfc3339 v with
      | false => simp [hval, entrySpecFrom, pidSpec, lenSpec, sptSpec, dptSpec, latSpec, intSpec, latSpecF, mLookup_cons, bind_fun_none]
      | true =>
        simp only [hval, if_true]
        rw [ih _ hndrest]
        simp +decide [entrySpecFrom, pidSpec, lenSpec, sptSpec, dptSpec, latSpec, intSpec, latSpecF, mLookup_cons, hkrest, hval]
    simp only [applyKV, h1, h2, h3, h4, h5, h6, h7, h8, h9, h10, h11, h12, h13, if_false]
    rw [ih _ hndrest]
    simp [entrySpecFrom, pidSpec, lenSpec, sptSpec, dptSpec, latSpec, intSpec, latSpecF, mLookup_cons, h1, h2, h3, h4, h5, h6, h7, h8, h9, h10, h11, h12, h13]

theorem tokKVP_eq (t : Str) : tokKVP t = some (tokKV t) := by
  simp only [tokKVP, tokKV]
  cases hkv : splitOnChar '=' t with
  | nil => exact absurd hkv (splitOnChar_ne_nil '=' t)
  | cons a rest =>
    cases rest with
    | nil => simp
    | cons b rest2 =>
      have hlen : ¬ (rest2.length + 1 + 1 < 2) := by omega
      simp [hlen]

theorem parse_bracketsP_eq (bracket : Str) :
    parse_bracketsP bracket = some (parse_brackets bracket) := by
  simp only [parse_bracketsP, parse_brackets]
  cases h0 : (splitOnChar ']' bracket).get? 0 with
  | none => rfl
  | some body =>
    cases h1 : (splitOnChar ']' bracket).get? 1 with
    | none => rfl
    | some after =>
      cases hsi : splitOnChar '-' body with
      | nil => exact absurd hsi (splitOnChar_ne_nil '-' body)
      | cons a rest =>
        simp only [hsi, List.get?_cons_zero, List.headD_cons]
        cases hst : strTail1 a with
        | none => rfl
        | some ft =>
          cases h2 : (a :: rest).get? 1 with
          | none => rfl
          | some ri =>
            cases h3 : (a :: rest).get? 2 with
            | none => rfl
            | some fa =>
              cases h4 : (splitOnChar '=' after).get? 1 with
              | none => rfl
              | some ii => rfl

theorem parseTokensP_eq (ts : List Str) : ∀ (i : Nat) (parsed : FieldMap),
    parseTokensP ts i parsed = some (parseTokens ts i parsed) := by
  induction ts with
  | nil => intro i parsed; rfl
  | cons t rest ih =>
    intro i parsed
    simp only [parseTokensP, parseTokens]
    by_cases h0 : i = 0
    · rw [if_pos h0, if_pos h0]
      exact ih _ _
    · rw [if_neg h0, if_neg h0]
      by_cases h12 : i = 1 ∨ i = 2
      · rw [if_pos h12, if_pos h12]
        exact ih _ _
      · rw [if_neg h12, if_neg h12]
        by_cases h3 : i = 3
        · rw [if_pos h3, if_pos h3]
          rw [parse_bracketsP_eq]
          cases hb : parse_brackets t with
          | error e => rfl
          | ok q =>
            obtain ⟨ft, ri, fa, ii⟩ := q
            exact ih _ _
        · rw [if_neg h3, if_neg h3]
          rw [tokKVP_eq]
          cases hkv : tokKV t with
          | none => exact ih _ _
          | some kv => exact ih _ _

/-- Inversion of the lookup characterization: a successfully built entry
is exactly described by the lookups. -/
theorem entrySpecFrom_inv {e0 : Entry} {m : FieldMap} {e : Entry}
    (h : entrySpecFrom e0 m = some e) :
    pidSpec e0 m = some e.packet_id ∧ lenSpec e0 m = some e.packet_size ∧
    sptSpec e0 m = some e.src_port ∧ dptSpec e0 m = some e.dst_port ∧
    latSpec e0 m = some e.logged_at ∧
    e.src_ip = (mLookup kSRC m).getD e0.src_ip ∧
    e.dst_ip = (mLookup kDST m).getD e0.dst_ip ∧
    e.protocol = (mLookup kPROTO m).getD e0.protocol ∧
    e.flow_type = (mLookup kFLOW_TYPE m).getD e0.flow_type ∧
    e.rule_id = (mLookup kRULE_ID m).getD e0.rule_id ∧
    e.in_interface = (mLookup kIN m).getD e0.in_interface ∧
    e.out_interface = (mLookup kOUT m).elim e0.out_interface some ∧
    e.fw_action = (mLookup kFW_ACTION m).getD e0.fw_action ∧
    e.id = e0.id := by
  unfold entrySpecFrom at h
  cases hpid : pidSpec e0 m with
  | none => rw [hpid] at h; simp at h
  | some pid =>
    rw [hpid] at h
    cases hlen : lenSpec e0 m with
    | none => rw [hlen] at h; simp at h
    | some len =>
      rw [hlen] at h
      cases hspt : sptSpec e0 m with
      | none => rw [hspt] at h; simp at h
      | some spt =>
        rw [hspt] at h
        cases hdpt : dptSpec e0 m with
        | none => rw [hdpt] at h; simp at h
        | some dpt =>
          rw [hdpt] at h
          cases hlat : latSpec e0 m with
          | none => rw [hlat] at h; simp at h
          | some lat =>
            rw [hlat] at h
            simp only [Option.some_bind, Option.some.injEq] at h
            subst h
            exact ⟨rfl, rfl, rfl, rfl, rfl, rfl, rfl, rfl, rfl, rfl,
              rfl, rfl, rfl, rfl⟩

theorem splitOnChar_not_mem {sep : Char} {t : Str} (h : sep ∉ t) :
    splitOnChar sep t = [t] := by
  induction t with
  | nil => rfl
  | cons c rest ih =>
    simp only [List.mem_cons] at h
    push_neg at h
    simp only [splitOnChar, if_neg (Ne.symm h.1)]
    rw [ih h.2]

theorem splitOnChar_append_sep {sep : Char} {k : Str} (v : Str) (h : sep ∉ k) :
    splitOnChar sep (k ++ sep :: v) = k :: splitOnChar sep v := by
  induction k with
  | nil => simp [splitOnChar]
  | cons c krest ih =>
    simp only [List.mem_cons] at h
    push_neg at h
    simp [splitOnChar, if_neg (Ne.symm h.1), ih h.2]

theorem splitOnChar_headD (sep : Char) (v : Str) :
    (splitOnChar sep v).headD [] = v.takeWhile (fun c => c != sep) := by
  induction v with
  | nil => rfl
  | cons c rest ih =>
    simp only [splitOnChar, List.takeWhile]
    by_cases h : c = sep
    · simp [h]
    · simp only [if_neg h]
      cases hs : splitOnChar sep rest with
      | nil => exact absurd hs (splitOnChar_ne_nil sep rest)
      | cons a tl =>
        rw [hs] at ih
        simp only [List.headD_cons] at ih
        have hb : (c != sep) = true := by simp [h]
        simp [h, ih, hb]

/-! ## Sanity anchors: the unit tests of `src/main.rs` -/

theorem sanity_parse_brackets_happy_path :
    parse_brackets "[LAN_IN-4001-A]IN=eth1".toList =
      Except.ok ("LAN_IN".toList, "4001".toList, "A".toList, "eth1".toList) := by
  rfl

theorem sanity_parse_brackets_unknown_line :
    parse_brackets "IPv4: martian source 0.0.0.0 from 0.0.0.0, on dev eth0".toList =
      Except.error OutOfBounds.outOfBounds := by
  rfl

theorem sanity_parse_line_unknown_line :
    parse_line "IPv4: martian source 0.0.0.0 from 0.0.0.0, on dev eth0".toList =
      Except.error OutOfBounds.outOfBounds := by
  rfl

/-! ## The claims -/

/-- C10: `parse_brackets` and `parse_line` are total and never panic:
the panic-faithful models (`parse_bracketsP`, `parse_lineP`, in which an
out-of-bounds `split_inner[0]`, `kv[0]` or `kv[1]` would be `none`)
always return `some` of the result of the total definitions — a success
value or the uniform `OutOfBounds` error.  The direct indexings are in
bounds because splitting any string yields at least one piece, and every
other element access (including the byte-slice `get(1..)`) is a guarded
`Option` lookup. -/
theorem c10_total_no_panic :
    (∀ bracket : Str, parse_bracketsP bracket = some (parse_brackets bracket)) ∧
    (∀ line : Str, parse_lineP line = some (parse_line line)) :=
  ⟨parse_bracketsP_eq, fun _ => parseTokensP_eq _ 0 []⟩

/-- C3: when the annotation extractor fails on token 3, the failure is
the single uniform `OutOfBounds` value (no partial tuple exists, by the
`Except` type), and `parse_line` fails the whole line with that same
outcome — whatever tokens follow token 3, no `FieldMap` is produced. -/
theorem c3_bracket_failure_aborts_line (line t0 t1 t2 t3 : Str) (rest : List Str)
    (er : OutOfBounds)
    (hsplit : splitOnChar ' ' line = t0 :: t1 :: t2 :: t3 :: rest)
    (hfail : parse_brackets t3 = Except.error er) :
    er = OutOfBounds.outOfBounds ∧
    parse_line line = Except.error OutOfBounds.outOfBounds ∧
    (∀ rest' : List Str,
      parseTokens (t0 :: t1 :: t2 :: t3 :: rest') 0 [] =
        Except.error OutOfBounds.outOfBounds) := by
  have her : er = OutOfBounds.outOfBounds := by cases er; rfl
  subst her
  refine ⟨rfl, ?_, ?_⟩
  · unfold parse_line
    rw [hsplit, parseTokens_structured, hfail]
  · intro rest'
    rw [parseTokens_structured, hfail]

theorem c3_witness :
    OutOfBounds.outOfBounds = OutOfBounds.outOfBounds ∧
    parse_line "a b c d x=1".toList = Except.error OutOfBounds.outOfBounds ∧
    (∀ rest' : List Str,
      parseTokens ("a".toList :: "b".toList :: "c".toList :: "d".toList :: rest') 0 [] =
        Except.error OutOfBounds.outOfBounds) :=
  c3_bracket_failure_aborts_line "a b c d x=1".toList "a".toList "b".toList
    "c".toList "d".toList ["x=1".toList] OutOfBounds.outOfBounds rfl rfl

/-- C1 (counterexample): the claim says a line with fewer than 4 tokens
fails; but `parse_line "a b c"` has 3 tokens and SUCCEEDS, returning the
map containing only `LOGGED_AT`. -/
theorem c1_counterexample :
    (splitOnChar ' ' "a b c".toList).length = 3 ∧
    parse_line "a b c".toList = Except.ok [(kLOGGED_AT, "a".toList)] := by
  exact ⟨rfl, rfl⟩

/-- C1 (amended): a line that splits into fewer than 4 tokens does NOT
fail: `parse_line` succeeds and returns the `FieldMap` containing
exactly the single binding `LOGGED_AT ↦ token 0` (the loop never reaches
index 3, so no bracket validation happens and no error is raised). -/
theorem c1_amended_short_line_succeeds (line : Str)
    (hlen : (splitOnChar ' ' line).length < 4) :
    parse_line line = Except.ok [(kLOGGED_AT, (splitOnChar ' ' line).headD [])] := by
  unfold parse_line
  cases hs : splitOnChar ' ' line with
  | nil => exact absurd hs (splitOnChar_ne_nil ' ' line)
  | cons t0 ts =>
    rw [hs] at hlen
    cases ts with
    | nil => simp [parseTokens, hmInsert]
    | cons t1 ts2 =>
      cases ts2 with
      | nil => simp [parseTokens, hmInsert]
      | cons t2 ts3 =>
        cases ts3 with
        | nil => simp [parseTokens, hmInsert]
        | cons t3 ts4 =>
          simp only [List.length_cons] at hlen
          omega

theorem c1_witness :
    (splitOnChar ' ' "x y".toList).length < 4 ∧
    parse_line "x y".toList =
      Except.ok [(kLOGGED_AT, (splitOnChar ' ' "x y".toList).headD [])] :=
  ⟨by decide, c1_amended_short_line_succeeds "x y".toList (by decide)⟩

/-- C4: the `FieldMap` has unique keys with last-write-wins semantics:
for any structured line, the final lookup of any key `k` is the value of
the LAST token among tokens 4.. that produces `k`, falling back to the
map accumulated from tokens 0-3; in particular a literal `IN=value`
token at position ≥ 4 overrides the bracket-derived interface, which is
used when no such token exists. -/
theorem c4_last_write_wins (line t0 t1 t2 t3 : Str) (rest : List Str)
    (ft ri fa ii : Str)
    (hsplit : splitOnChar ' ' line = t0 :: t1 :: t2 :: t3 :: rest)
    (hb : parse_brackets t3 = Except.ok (ft, ri, fa, ii)) :
    (∀ k : Str, resLookup (parse_line line) k =
      match lastVal k rest with
      | some v => some v
      | none => mLookup k (initMap t0 ft ri fa ii)) ∧
    (∀ v : Str, lastVal kIN rest = some v →
      resLookup (parse_line line) kIN = some v) ∧
    (lastVal kIN rest = none → resLookup (parse_line line) kIN = some ii) := by
  have hline : parse_line line =
      Except.ok (rest.foldl stepFn (initMap t0 ft ri fa ii)) := by
    unfold parse_line
    rw [hsplit, parseTokens_structured, hb]
  have hmain : ∀ k : Str, resLookup (parse_line line) k =
      match lastVal k rest with
      | some v => some v
      | none => mLookup k (initMap t0 ft ri fa ii) := by
    intro k
    rw [hline]
    simp only [resLookup]
    exact foldl_stepFn_lookup k rest _
  refine ⟨hmain, ?_, ?_⟩
  · intro v hv
    rw [hmain kIN, hv]
  · intro hv
    rw [hmain kIN, hv]
    simp +decide [initMap, mLookup_cons]

theorem c4_witness :
    resLookup (parse_line "t h k [f-r-a]IN=e0 IN=e1".toList) kIN = some "e1".toList :=
  (c4_last_write_wins "t h k [f-r-a]IN=e0 IN=e1".toList "t".toList "h".toList
      "k".toList "[f-r-a]IN=e0".toList ["IN=e1".toList]
      "f".toList "r".toList "a".toList "e0".toList rfl rfl).2.1 "e1".toList rfl

/-- C2 (counterexample): the claim says the value of a `KEY=VALUE` token
is the ENTIRE text after the first `=`; but for the token `K=a=b` at
position 4 the stored value is `a` (the piece between the first and
second `=`), not `a=b`. -/
theorem c2_counterexample :
    resLookup (parse_line "t h k [f-r-a]IN=e K=a=b".toList) "K".toList =
      some "a".toList ∧
    some "a".toList ≠ some "a=b".toList := by
  exact ⟨rfl, by decide⟩

/-- C2 (amended): a token at position ≥ 4 is split on every `=`: the key
is the text before the first `=`, and the value is the text strictly
BETWEEN the first and the second `=` (text after a second `=` is
dropped), not the entire remainder.  A token with no `=` is dropped
without failing the line (the scan continues and the line still
succeeds), and all other valid tokens still populate the map. -/
theorem c2_amended_first_equals_value (line t0 t1 t2 t3 : Str) (rest : List Str)
    (ft ri fa ii : Str)
    (hsplit : splitOnChar ' ' line = t0 :: t1 :: t2 :: t3 :: rest)
    (hb : parse_brackets t3 = Except.ok (ft, ri, fa, ii)) :
    (∀ k v : Str, '=' ∉ k →
      tokKV (k ++ '=' :: v) = some (k, v.takeWhile (fun c => c != '='))) ∧
    (∀ t : Str, '=' ∉ t → tokKV t = none) ∧
    (∀ (t : Str) (ts : List Str) (m : FieldMap), tokKV t = none →
      (t :: ts).foldl stepFn m = ts.foldl stepFn m) ∧
    parse_line line = Except.ok (rest.foldl stepFn (initMap t0 ft ri fa ii)) := by
  refine ⟨?_, ?_, ?_, ?_⟩
  · intro k v hk
    unfold tokKV
    rw [splitOnChar_append_sep v hk]
    have hne := splitOnChar_ne_nil '=' v
    cases hsv : splitOnChar '=' v with
    | nil => exact absurd hsv hne
    | cons a tl =>
      have hh : (splitOnChar '=' v).headD [] = v.takeWhile (fun c => c != '=') :=
        splitOnChar_headD '=' v
      rw [hsv] at hh
      simp only [List.headD_cons] at hh
      simp [hh]
  · intro t ht
    unfold tokKV
    rw [splitOnChar_not_mem ht]
    simp
  · intro t ts m ht
    simp [stepFn, ht]
  · unfold parse_line
    rw [hsplit, parseTokens_structured, hb]

theorem c2_witness :
    tokKV ("K".toList ++ '=' :: "a=b".toList) = some ("K".toList, "a".toList) ∧
    tokKV "DF".toList = none ∧
    parse_line "t h k [f-r-a]IN=e K=a=b DF".toList =
      Except.ok ((["K=a=b".toList, "DF".toList]).foldl stepFn
        (initMap "t".toList "f".toList "r".toList "a".toList "e".toList)) := by
  have h := c2_amended_first_equals_value "t h k [f-r-a]IN=e K=a=b DF".toList
    "t".toList "h".toList "k".toList "[f-r-a]IN=e".toList
    ["K=a=b".toList, "DF".toList] "f".toList "r".toList "a".toList "e".toList rfl rfl
  exact ⟨(h.1 "K".toList "a=b".toList (by decide)).trans rfl,
    h.2.1 "DF".toList (by decide), h.2.2.2⟩

/-- C6: the values of `ID`, `LEN`, `SPT`, `DPT` are parsed as decimal
text into the signed-32-bit integer fields `packet_id`, `packet_size`,
`src_port`, `dst_port`; a present value that does not parse is fatal:
NO record at all is built (the `unwrap` panics), so no record with a
default or partial value for that key is ever produced. -/
theorem c6_int_keys_fatal (m : FieldMap) (hnd : NodupKeys m) :
    (∀ v : Str, mLookup kID m = some v →
      (parseI32 v = none → buildEntry m = none) ∧
      (∀ (n : Int) (e : Entry), parseI32 v = some n → buildEntry m = some e →
        e.packet_id = n)) ∧
    (∀ v : Str, mLookup kLEN m = some v →
      (parseI32 v = none → buildEntry m = none) ∧
      (∀ (n : Int) (e : Entry), parseI32 v = some n → buildEntry m = some e →
        e.packet_size = n)) ∧
    (∀ v : Str, mLookup kSPT m = some v →
      (parseI32 v = none → buildEntry m = none) ∧
      (∀ (n : Int) (e : Entry), parseI32 v = some n → buildEntry m = some e →
        e.src_port = n)) ∧
    (∀ v : Str, mLookup kDPT m = some v →
      (parseI32 v = none → buildEntry m = none) ∧
      (∀ (n : Int) (e : Entry), parseI32 v = some n → buildEntry m = some e →
        e.dst_port = n)) := by
  have hbe : buildEntry m = entrySpecFrom Entry.new m :=
    buildEntryFrom_eq m Entry.new hnd
  refine ⟨?_, ?_, ?_, ?_⟩
  · intro v hv
    constructor
    · intro hbad
      rw [hbe]
      simp [entrySpecFrom, pidSpec, intSpec, hv, hbad, bind_fun_none]
    · intro n e hn he
      rw [hbe] at he
      have h1 := (entrySpecFrom_inv he).1
      simp only [pidSpec] at h1
      rw [hv] at h1
      simp [intSpec, hn] at h1
      omega
  · intro v hv
    constructor
    · intro hbad
      rw [hbe]
      simp [entrySpecFrom, lenSpec, intSpec, hv, hbad, bind_fun_none]
    · intro n e hn he
      rw [hbe] at he
      have h1 := (entrySpecFrom_inv he).2.1
      simp only [lenSpec] at h1
      rw [hv] at h1
      simp [intSpec, hn] at h1
      omega
  · intro v hv
    constructor
    · intro hbad
      rw [hbe]
      simp [entrySpecFrom, sptSpec, intSpec, hv, hbad, bind_fun_none]
    · intro n e hn he
      rw [hbe] at he
      have h1 := (entrySpecFrom_inv he).2.2.1
      simp only [sptSpec] at h1
      rw [hv] at h1
      simp [intSpec, hn] at h1
      omega
  · intro v hv
    constructor
    · intro hbad
      rw [hbe]
      simp [entrySpecFrom, dptSpec, intSpec, hv, hbad, bind_fun_none]
    · intro n e hn he
      rw [hbe] at he
      have h1 := (entrySpecFrom_inv he).2.2.2.1
      simp only [dptSpec] at h1
      rw [hv] at h1
      simp [intSpec, hn] at h1
      omega

theorem c6_witness :
    buildEntry [(kID, "x".toList)] = none ∧
    buildEntry [(kID, "40048".toList)] = some { Entry.new with packet_id := 40048 } ∧
    ({ Entry.new with packet_id := 40048 } : Entry).packet_id = 40048 := by
  refine ⟨?_, rfl, ?_⟩
  · exact ((c6_int_keys_fatal [(kID, "x".toList)] (by decide)).1 "x".toList rfl).1 rfl
  · exact ((c6_int_keys_fatal [(kID, "40048".toList)] (by decide)).1
      "40048".toList rfl).2 40048 _ rfl rfl

/-- C7 (counterexample): the claim says every record built from a
validated line has non-empty `src_ip` and `dst_ip`; but the line
`2019-01-12T13:56:05-08:00 host kernel: [LAN_LOCAL-default-A]IN=eth0`
passes validation (the bracket parses), a record IS built, and both its
`src_ip` and `dst_ip` are the empty string (the builder never enforces
non-emptiness; only the database CHECK constraint does). -/
theorem c7_counterexample :
    ((parse_line "2019-01-12T13:56:05-08:00 host kernel: [LAN_LOCAL-default-A]IN=eth0".toList).toOption.bind
        buildEntry).map Entry.src_ip = some ([] : Str) ∧
    ((parse_line "2019-01-12T13:56:05-08:00 host kernel: [LAN_LOCAL-default-A]IN=eth0".toList).toOption.bind
        buildEntry).map Entry.dst_ip = some ([] : Str) := by
  exact ⟨rfl, rfl⟩

/-- C7 (amended): the builder copies `SRC`/`DST` verbatim into
`src_ip`/`dst_ip` when present and leaves the empty-string default when
absent; non-emptiness of these fields is NOT guaranteed by the builder. -/
theorem c7_amended_src_dst_copied (m : FieldMap) (hnd : NodupKeys m) (e : Entry)
    (h : buildEntry m = some e) :
    e.src_ip = (mLookup kSRC m).getD [] ∧ e.dst_ip = (mLookup kDST m).getD [] := by
  have hbe : buildEntry m = entrySpecFrom Entry.new m :=
    buildEntryFrom_eq m Entry.new hnd
  rw [hbe] at h
  obtain ⟨-, -, -, -, -, hsrc, hdst, -⟩ := entrySpecFrom_inv h
  exact ⟨hsrc, hdst⟩

theorem c7_witness :
    ({ Entry.new with src_ip := "1.2".toList } : Entry).src_ip =
      (mLookup kSRC [(kSRC, "1.2".toList)]).getD [] ∧
    ({ Entry.new with src_ip := "1.2".toList } : Entry).dst_ip =
      (mLookup kDST [(kSRC, "1.2".toList)]).getD [] :=
  c7_amended_src_dst_copied [(kSRC, "1.2".toList)] (by decide) _ rfl

/-- C8: presence of the `OUT` key — even with the empty-string value —
makes `out_interface` a present (`some`) value carrying that text;
absence of `OUT` leaves `out_interface` unset (`none`). -/
theorem c8_out_presence (m : FieldMap) (hnd : NodupKeys m) :
    (∀ v : Str, mLookup kOUT m = some v →
      ∀ e : Entry, buildEntry m = some e → e.out_interface = some v) ∧
    (mLookup kOUT m = none →
      ∀ e : Entry, buildEntry m = some e → e.out_interface = none) := by
  have hbe : buildEntry m = entrySpecFrom Entry.new m :=
    buildEntryFrom_eq m Entry.new hnd
  constructor
  · intro v hv e h
    rw [hbe] at h
    obtain ⟨-, -, -, -, -, -, -, -, -, -, -, hout, -, -⟩ := entrySpecFrom_inv h
    rw [hout, hv]
    rfl
  · intro hv e h
    rw [hbe] at h
    obtain ⟨-, -, -, -, -, -, -, -, -, -, -, hout, -, -⟩ := entrySpecFrom_inv h
    rw [hout, hv]
    rfl

theorem c8_witness :
    buildEntry [(kOUT, ([] : Str))] =
      some { Entry.new with out_interface := some ([] : Str) } ∧
    ({ Entry.new with out_interface := some ([] : Str) } : Entry).out_interface =
      some ([] : Str) ∧
    buildEntry [(kSRC, "a".toList)] = some { Entry.new with src_ip := "a".toList } ∧
    ({ Entry.new with src_ip := "a".toList } : Entry).out_interface = none := by
  refine ⟨rfl, ?_, rfl, ?_⟩
  · exact (c8_out_presence [(kOUT, [])] (by decide)).1 [] rfl _ rfl
  · exact (c8_out_presence [(kSRC, "a".toList)] (by decide)).2 rfl _ rfl

/-- C9: parsing a well-formed line and building the record is a
deterministic function of the input text: the record does not depend on
the `FieldMap`'s internal iteration order — building from ANY
permutation of the parsed map yields the identical record. -/
theorem c9_deterministic (line : Str) (m m' : FieldMap)
    (hparse : parse_line line = Except.ok m) (hperm : List.Perm m m') :
    buildEntry m' = buildEntry m := by
  have hnd : NodupKeys m := parse_line_nodup hparse
  have hnd' : NodupKeys m' := ((hperm.map Prod.fst).nodup_iff).mp hnd
  have hbe : buildEntry m = entrySpecFrom Entry.new m :=
    buildEntryFrom_eq m Entry.new hnd
  have hbe' : buildEntry m' = entrySpecFrom Entry.new m' :=
    buildEntryFrom_eq m' Entry.new hnd'
  rw [hbe, hbe']
  have hl : ∀ k, mLookup k m' = mLookup k m :=
    fun k => (mLookup_perm k hperm hnd).symm
  simp [entrySpecFrom, pidSpec, lenSpec, sptSpec, dptSpec, latSpec, hl]

theorem c9_witness :
    buildEntry ([(kLOGGED_AT, "t".toList), (kFW_ACTION, "a".toList),
        (kRULE_ID, "r".toList), (kFLOW_TYPE, "f".toList), (kIN, "e".toList),
        (kSRC, "1".toList), (kDST, "2".toList)].reverse) =
      buildEntry [(kLOGGED_AT, "t".toList), (kFW_ACTION, "a".toList),
        (kRULE_ID, "r".toList), (kFLOW_TYPE, "f".toList), (kIN, "e".toList),
        (kSRC, "1".toList), (kDST, "2".toList)] :=
  c9_deterministic "t h k [f-r-a]IN=e SRC=1 DST=2".toList
    [(kLOGGED_AT, "t".toList), (kFW_ACTION, "a".toList),
      (kRULE_ID, "r".toList), (kFLOW_TYPE, "f".toList), (kIN, "e".toList),
      (kSRC, "1".toList), (kDST, "2".toList)] _ rfl
    (List.reverse_perm _).symm

/-- C5 (counterexample): the claim says a line on which per-line
processing fails never aborts the run; but a line whose record
conversion fails (here `ID=x`, a malformed integer) parses fine and then
panics inside `insert_line`, aborting the whole run — the following
line is never processed and no skip outcome is produced. -/
theorem c5_counterexample :
    parse_line "2019-01-12T13:56:05-08:00 h k [f-r-a]IN=e ID=x".toList =
      Except.ok [(kLOGGED_AT, "2019-01-12T13:56:05-08:00".toList),
        (kFW_ACTION, "a".toList), (kRULE_ID, "r".toList),
        (kFLOW_TYPE, "f".toList), (kIN, "e".toList), (kID, "x".toList)] ∧
    buildEntry [(kLOGGED_AT, "2019-01-12T13:56:05-08:00".toList),
        (kFW_ACTION, "a".toList), (kRULE_ID, "r".toList),
        (kFLOW_TYPE, "f".toList), (kIN, "e".toList), (kID, "x".toList)] = none ∧
    ingest_file ("2019-01-12T13:56:05-08:00 h k [f-r-a]IN=e ID=x".toList ++
        '\n' :: "second line".toList) = none := by
  exact ⟨rfl, rfl, rfl⟩

/-- C5 (amended): a line on which `parse_line` fails never aborts the
run: it becomes a skip outcome and every subsequent line is still
processed (the run yields one outcome per line).  This isolation only
holds as long as no successfully parsed line makes the record builder
panic; a builder panic (malformed numeric/timestamp text) aborts the
whole run, as the counterexample shows. -/
theorem c5_amended_parse_failures_skipped (ls : List Str)
    (h : ∀ (l : Str) (m : FieldMap), l ∈ ls → parse_line l = Except.ok m →
      (buildEntry m).isSome = true) :
    ∃ acts : List LineOutcome, runLines ls = some acts ∧
      acts.length = ls.length ∧
      ∀ (i : Nat) (hi : i < ls.length),
        (parse_line (ls.get ⟨i, hi⟩)).isOk = false →
          acts.get? i = some (LineOutcome.skipped (ls.get ⟨i, hi⟩)) := by
  induction ls with
  | nil => exact ⟨[], rfl, rfl, fun i hi => absurd hi (by simp)⟩
  | cons l ls ih =>
    obtain ⟨acts, hrun, hlen, hskip⟩ :=
      ih (fun l' m hl' => h l' m (List.mem_cons_of_mem _ hl'))
    cases hp : parse_line l with
    | error e =>
      refine ⟨LineOutcome.skipped l :: acts, ?_, by simp [hlen], ?_⟩
      · simp [runLines, hp, hrun]
      · intro i hi hne
        cases i with
        | zero => simp
        | succ j =>
          have hj : j < ls.length := by simpa using hi
          have hget : (l :: ls).get ⟨j + 1, hi⟩ = ls.get ⟨j, hj⟩ := rfl
          rw [hget] at hne ⊢
          exact hskip j hj hne
    | ok m =>
      have hsome := h l m (List.mem_cons_self l ls) hp
      rw [Option.isSome_iff_exists] at hsome
      obtain ⟨e, he⟩ := hsome
      refine ⟨LineOutcome.inserted e :: acts, ?_, by simp [hlen], ?_⟩
      · simp [runLines, hp, he, hrun]
      · intro i hi hne
        cases i with
        | zero =>
          have hget : (l :: ls).get ⟨0, hi⟩ = l := rfl
          rw [hget] at hne
          rw [hp] at hne
          simp [Except.isOk, Except.toBool] at hne
        | succ j =>
          have hj : j < ls.length := by simpa using hi
          have hget : (l :: ls).get ⟨j + 1, hi⟩ = ls.get ⟨j, hj⟩ := rfl
          rw [hget] at hne ⊢
          exact hskip j hj hne

theorem c5_witness :
    ∃ acts : List LineOutcome,
      runLines ["a b c d".toList,
          "2019-01-12T13:56:05-08:00 h k [f-r-a]IN=e SRC=1".toList] = some acts ∧
      acts.length = (["a b c d".toList,
          "2019-01-12T13:56:05-08:00 h k [f-r-a]IN=e SRC=1".toList] : List Str).length ∧
      ∀ (i : Nat) (hi : i < (["a b c d".toList,
          "2019-01-12T13:56:05-08:00 h k [f-r-a]IN=e SRC=1".toList] : List Str).length),
        (parse_line ((["a b c d".toList,
            "2019-01-12T13:56:05-08:00 h k [f-r-a]IN=e SRC=1".toList] : List Str).get
          ⟨i, hi⟩)).isOk = false →
          acts.get? i = some (LineOutcome.skipped ((["a b c d".toList,
            "2019-01-12T13:56:05-08:00 h k [f-r-a]IN=e SRC=1".toList] : List Str).get
            ⟨i, hi⟩)) := by
  apply c5_amended_parse_failures_skipped
  intro l m hl hp
  simp only [List.mem_cons, List.not_mem_nil, or_false] at hl
  rcases hl with rfl | rfl
  · rw [show parse_line "a b c d".toList = Except.error OutOfBounds.outOfBounds
      from rfl] at hp
    exact Except.noConfusion hp
  · have h2 : Except.ok (ε := OutOfBounds) m =
        Except.ok [(kLOGGED_AT, "2019-01-12T13:56:05-08:00".toList),
          (kFW_ACTION, "a".toList), (kRULE_ID, "r".toList),
          (kFLOW_TYPE, "f".toList), (kIN, "e".toList), (kSRC, "1".toList)] :=
      hp.symm.trans rfl
    injection h2 with h3
    rw [h3]
    rfl
